import Mathlib

/-
Verification of the fighter state machines of the amazon-warriors repository.

The development shallowly embeds the two source modules the properties are
about:

* `src/amazonwarriors/input_state.py` — the `InputState` dataclass with its
  key-press operations, direction rule and `get_desired_movement_state`;
* `src/amazonwarriors/state_machines.py` — the `PlayerStateMachine` (events
  `movement`, `action`, `resume`, the command buffer and
  `handle_action_input`) and the `EnemyStateMachine` weight tables.

The machines are built on the python-statemachine library; its documented
semantics, which the embedding reflects, are:

* each event owns an ordered list of transitions; firing the event executes
  the first declared transition whose source is the current state and whose
  `cond`/`unless` guards pass;
* with `allow_event_without_transition = True` (set on `PlayerStateMachine`
  both as a class attribute and in `__init__`), an event with no eligible
  transition is silently ignored: no exception, no state change, no
  callbacks;
* a transition declared with `State.to(target)` is external even when
  `target` is the source itself, so firing it runs the source's `on_exit_*`
  and the target's `on_enter_*` actions — a fired self-transition re-enters
  its state and restarts that state's animation cycle;
* `after_<event>` callbacks run only when a transition of that event
  actually executed.

An event is therefore embedded as a function returning `Option` of the
target state: `some t` means a transition fired and the enter actions of
`t` ran (restarting an animation cycle); `none` means the event was
absorbed with no side effect.  Animation playback itself is an external
collaborator and is not modelled; what the enter hooks generated by
`auto_state_handlers` do to the machine data (consuming the pending
command on entering an action state) is modelled.
-/

namespace AmazonWarriors

/-- Embedding of the `InputState` dataclass of `input_state.py`, with the
fields and defaults of the source (`shift_key_pressed = False`,
`direction = 1`, `latest_cmd = None`, both held-key flags `False`). -/
structure InputState where
  shift_key_pressed : Bool := false
  direction : Int := 1
  latest_cmd : Option String := none
  _left_pressed : Bool := false
  _right_pressed : Bool := false
  deriving DecidableEq, Repr

/-- Property `InputState.move`: true if any movement key is pressed. -/
def InputState.move (s : InputState) : Bool :=
  s._left_pressed || s._right_pressed

/-- Property `InputState.move_key_pressed`, an alias for `move`. -/
def InputState.move_key_pressed (s : InputState) : Bool :=
  s.move

/-- Property `InputState.shift`. -/
def InputState.shift (s : InputState) : Bool :=
  s.shift_key_pressed

/-- Method `InputState._update_direction`: right pressed gives `1`, else
left pressed gives `-1`, else the previous direction is kept. -/
def InputState._update_direction (s : InputState) : InputState :=
  if s._right_pressed then { s with direction := 1 }
  else if s._left_pressed then { s with direction := -1 }
  else s

/-- Method `InputState.press_left`. -/
def InputState.press_left (s : InputState) : InputState :=
  InputState._update_direction { s with _left_pressed := true }

/-- Method `InputState.release_left`. -/
def InputState.release_left (s : InputState) : InputState :=
  InputState._update_direction { s with _left_pressed := false }

/-- Method `InputState.press_right`. -/
def InputState.press_right (s : InputState) : InputState :=
  InputState._update_direction { s with _right_pressed := true }

/-- Method `InputState.release_right`. -/
def InputState.release_right (s : InputState) : InputState :=
  InputState._update_direction { s with _right_pressed := false }

/-- Method `InputState.get_desired_movement_state`: `run_state` when moving
with shift held, `walk_state` when moving without shift, otherwise
`idle_state`.  Generic in the state-object type, as the Python method is. -/
def InputState.get_desired_movement_state {α : Type} (s : InputState)
    (idle_state walk_state run_state : α) : α :=
  if s.move_key_pressed then
    (if s.shift_key_pressed then run_state else walk_state)
  else idle_state

/-- The states declared on `PlayerStateMachine`. -/
inductive PlayerState where
  | Idle
  | Idle_2
  | Walk
  | Run
  | Jump
  | Attack_1
  | Attack_2
  | Special
  | Hurt
  | Dead
  deriving DecidableEq, Repr

/-- Guard `forward`: the player faces forward when `direction == 1`. -/
def forwardGuard (i : InputState) : Bool :=
  i.direction == 1

/-- Guard `_check_cmd(name)`: the pending command equals `name` (and in
particular some command is pending). -/
def cmdGuard (i : InputState) (name : String) : Bool :=
  i.latest_cmd == some name

/-- The `movement` event of `PlayerStateMachine`: its transitions in
declaration order, restricted to the current state; `some t` means the
first matching transition fired into `t` (running the enter actions of
`t`, a self-transition included), `none` means the event was absorbed. -/
def movementTransition (s : PlayerState) (i : InputState) : Option PlayerState :=
  match s with
  | .Idle =>
      if i.move && !i.shift then some .Walk
      else if i.move && i.shift && forwardGuard i then some .Run
      else if i.move && i.shift then some .Walk
      else if !i.move then some .Idle
      else none
  | .Walk =>
      if i.move && i.shift && forwardGuard i then some .Run
      else if !i.move then some .Idle
      else none
  | .Run =>
      if i.move && !i.shift then some .Walk
      else if i.move && !forwardGuard i then some .Walk
      else if !i.move then some .Idle
      else none
  | _ => none

/-- The `action` event of `PlayerStateMachine`: sources are only `Idle`,
`Walk` and `Run`; per source the declared order is Jump, Attack_1,
Attack_2, Special.  From `Run` the jump guard is `cmd_jump` alone (the
source comments "Already forward if running"). -/
def actionTransition (s : PlayerState) (i : InputState) : Option PlayerState :=
  match s with
  | .Idle =>
      if cmdGuard i "jump" && forwardGuard i then some .Jump
      else if cmdGuard i "attack_1" then some .Attack_1
      else if cmdGuard i "attack_2" then some .Attack_2
      else if cmdGuard i "special" then some .Special
      else none
  | .Walk =>
      if cmdGuard i "jump" && forwardGuard i then some .Jump
      else if cmdGuard i "attack_1" then some .Attack_1
      else if cmdGuard i "attack_2" then some .Attack_2
      else if cmdGuard i "special" then some .Special
      else none
  | .Run =>
      if cmdGuard i "jump" then some .Jump
      else if cmdGuard i "attack_1" then some .Attack_1
      else if cmdGuard i "attack_2" then some .Attack_2
      else if cmdGuard i "special" then some .Special
      else none
  | _ => none

/-- The `resume` event of `PlayerStateMachine`: from each of the four
action states, in declared order, `Run` on `move and shift and forward`,
`Walk` on `move and not shift`, `Idle` unless `move`. -/
def resumeTransition (s : PlayerState) (i : InputState) : Option PlayerState :=
  match s with
  | .Jump | .Attack_1 | .Attack_2 | .Special =>
      if i.move && i.shift && forwardGuard i then some .Run
      else if i.move && !i.shift then some .Walk
      else if !i.move then some .Idle
      else none
  | _ => none

/-- `PlayerStateMachine._is_non_interruptible`: true in `Jump`,
`Attack_1`, `Attack_2` and `Special`. -/
def PlayerState.isNonInterruptible : PlayerState → Bool
  | .Jump | .Attack_1 | .Attack_2 | .Special => true
  | _ => false

/-- The machine data the claims are about: the current state, the
`deque(maxlen=2)` command buffer (head = oldest), and the `InputState`
shared through the `DuelContext`. -/
structure PlayerSM where
  current : PlayerState
  queue : List String
  input : InputState
  deriving DecidableEq, Repr

/-- The machine as `__init__` leaves it: initial state `Idle` (declared
`initial=True`), empty buffer. -/
def initSM (i : InputState) : PlayerSM :=
  { current := .Idle, queue := [], input := i }

/-- `deque(maxlen=2).append`: when the buffer already holds two items the
oldest (leftmost) is evicted before the new item is appended. -/
def dequeAppend2 (q : List String) (c : String) : List String :=
  if q.length < 2 then q ++ [c] else q.drop 1 ++ [c]

/-- Firing the `action` event: the first eligible transition (if any)
fires; the generated `on_enter_*` of an action state runs `_consume_cmd`,
clearing `latest_cmd` (all targets of `action` are action states).  With
no eligible transition the event is silently ignored
(`allow_event_without_transition`). -/
def fireAction (m : PlayerSM) : PlayerSM :=
  match actionTransition m.current m.input with
  | some t =>
      { m with
        current := t
        input :=
          if t.isNonInterruptible then { m.input with latest_cmd := none }
          else m.input }
  | none => m

/-- Firing the `movement` event (targets are movement states, whose enter
hooks do not touch the machine data). -/
def fireMovement (m : PlayerSM) : PlayerSM :=
  match movementTransition m.current m.input with
  | some t => { m with current := t }
  | none => m

/-- `PlayerStateMachine._pump_queue`: pop the oldest buffered command,
store it as `latest_cmd` and fire `action`. -/
def pumpQueue (m : PlayerSM) : PlayerSM :=
  match m.queue with
  | c :: rest =>
      fireAction { m with queue := rest, input := { m.input with latest_cmd := some c } }
  | [] => m

/-- Firing the `resume` event; when a transition executes, the
`after_resume` hook pumps the queue once. -/
def fireResume (m : PlayerSM) : PlayerSM :=
  match resumeTransition m.current m.input with
  | some t => pumpQueue { m with current := t }
  | none => m

/-- `PlayerStateMachine.handle_action_input`: buffer the command when the
current state is non-interruptible, otherwise store it as `latest_cmd`
and fire the `action` event. -/
def handle_action_input (m : PlayerSM) (cmd : String) : PlayerSM :=
  if m.current.isNonInterruptible then
    { m with queue := dequeAppend2 m.queue cmd }
  else
    fireAction { m with input := { m.input with latest_cmd := some cmd } }

/-- The `_on_action_complete` callback installed by `auto_state_handlers`
for action states: with a non-empty buffer, pop the oldest command, store
it as `latest_cmd` and fire `action`; with an empty buffer, fire
`resume`. -/
def onActionComplete (m : PlayerSM) : PlayerSM :=
  match m.queue with
  | c :: rest =>
      fireAction { m with queue := rest, input := { m.input with latest_cmd := some c } }
  | [] => fireResume m

/-- The states declared on `EnemyStateMachine`. -/
inductive EnemyState where
  | Idle
  | Idle_2
  | Attack_1
  | Attack_2
  | Jump
  | Run
  | Special
  | Walk
  deriving DecidableEq, Repr

/-- The weighted transition table of the enemy `walk` event, targets and
weights in declaration order. -/
def walkWeighted : List (EnemyState × Nat) :=
  [(.Attack_1, 5), (.Attack_2, 10), (.Special, 5), (.Run, 25), (.Walk, 35), (.Idle, 15)]

/-- Total outgoing weight of the enemy `walk` event. -/
def walkTotal : Nat :=
  (walkWeighted.map Prod.snd).sum

/-- Weight the `walk` event table declares for a target. -/
def walkWeightOf (t : EnemyState) : Nat :=
  ((walkWeighted.filter (fun p => p.1 == t)).map Prod.snd).sum

/-- Probability of each target of the enemy `walk` event under the
normalization the spec prescribes: the declared weight divided by the sum
of the outgoing weights. -/
def walkProb (t : EnemyState) : ℚ :=
  (walkWeightOf t : ℚ) / (walkTotal : ℚ)

/-- An input with a movement key held, shift held and the player facing
backward (left pressed, `direction = -1`), as produced by `press_left`
with shift down. -/
def moveShiftBackward : InputState :=
  { shift_key_pressed := true, direction := -1, _left_pressed := true }

/-- An input facing backward with the pending command `jump`. -/
def backwardJumpInput : InputState :=
  { direction := -1, latest_cmd := some "jump", _left_pressed := true }

/-- A machine caught in state `Jump` with one buffered command, the
configuration of the chaining claim. -/
def jumpWithBufferedAttack : PlayerSM :=
  { current := .Jump, queue := ["attack_1"], input := {} }

/-- C1: the claim says the animation-cycle completion callback of an
action state with a non-empty buffer pops the oldest command and
transitions the machine directly into that command's action state.  The
code pops the command and fires the `action` event, but the `action`
event declares no transition out of `Jump`, `Attack_1`, `Attack_2` or
`Special`, so the event is silently absorbed: the machine stays in the
action state and the popped command is discarded.  Evaluated here at
state `Jump` with buffer `["attack_1"]`: after the callback the machine
is still in `Jump`, the buffer is empty, and no chained transition
occurred; the third conjunct shows the `action` event can never fire from
`Jump` whatever the input. -/
theorem c1_chaining_drops_buffered_command :
    (onActionComplete jumpWithBufferedAttack).current = PlayerState.Jump ∧
    (onActionComplete jumpWithBufferedAttack).queue = [] ∧
    ∀ i : InputState, actionTransition PlayerState.Jump i = none := by
  refine ⟨rfl, rfl, fun i => rfl⟩

/-- C2 counterexample: with a movement key and shift held while facing
backward, the claim says `resume` lands in `Walk`; in the code no guard
of `resume` passes (`Run` needs `forward`, `Walk` needs `not shift`,
`Idle` needs `not move`), so the event is absorbed and the machine stays
in the action state. -/
theorem c2_resume_counterexample :
    resumeTransition PlayerState.Jump moveShiftBackward ≠ some PlayerState.Walk ∧
    resumeTransition PlayerState.Jump moveShiftBackward = none ∧
    fireResume { current := PlayerState.Jump, queue := [], input := moveShiftBackward } =
      { current := PlayerState.Jump, queue := [], input := moveShiftBackward } := by
  decide

/-- C2 amended: from any action state, `resume` goes to `Run` iff
`move ∧ shift ∧ forward`, to `Walk` iff `move ∧ ¬shift`, to `Idle` iff
`¬move`; in the remaining case `move ∧ shift ∧ ¬forward` no transition
fires and the machine stays in the action state. -/
theorem c2_resume_amended (s : PlayerState) (i : InputState)
    (hs : s = PlayerState.Jump ∨ s = PlayerState.Attack_1 ∨
          s = PlayerState.Attack_2 ∨ s = PlayerState.Special) :
    (resumeTransition s i = some PlayerState.Run ↔
      (i.move = true ∧ i.shift = true ∧ forwardGuard i = true)) ∧
    (resumeTransition s i = some PlayerState.Walk ↔
      (i.move = true ∧ i.shift = false)) ∧
    (resumeTransition s i = some PlayerState.Idle ↔ i.move = false) ∧
    (i.move = true → i.shift = true → forwardGuard i = false →
      resumeTransition s i = none) := by
  rcases hs with h | h | h | h <;> subst h <;>
    cases hm : i.move <;> cases hsh : i.shift <;> cases hf : forwardGuard i <;>
      simp [resumeTransition, hm, hsh, hf]

/-- Witness for `c2_resume_amended` at state `Jump` with a backward
shifted movement input. -/
theorem c2_resume_amended_witness :
    resumeTransition PlayerState.Jump moveShiftBackward = none :=
  (c2_resume_amended PlayerState.Jump moveShiftBackward (Or.inl rfl)).2.2.2
    (by decide) (by decide) (by decide)

/-- C3 counterexample: from `Run` the `action` event's jump transition is
declared with guard `cmd_jump` alone, so with `direction = -1` and
pending command `jump` the machine transitions to `Jump` instead of
staying in `Run`. -/
theorem c3_jump_counterexample :
    actionTransition PlayerState.Run backwardJumpInput = some PlayerState.Jump ∧
    (fireAction { current := PlayerState.Run, queue := [], input := backwardJumpInput }).current
      ≠ PlayerState.Run := by
  decide

/-- C3 amended: with pending command `jump`, the `action` event from
`Idle` and `Walk` transitions to `Jump` exactly when `direction = 1` and
fires nothing when the direction is backward; from `Run` it transitions
to `Jump` regardless of the direction. -/
theorem c3_jump_amended (i : InputState) (h : i.latest_cmd = some "jump") :
    (actionTransition PlayerState.Idle i = some PlayerState.Jump ↔ i.direction = 1) ∧
    (actionTransition PlayerState.Walk i = some PlayerState.Jump ↔ i.direction = 1) ∧
    (i.direction ≠ 1 →
      actionTransition PlayerState.Idle i = none ∧
      actionTransition PlayerState.Walk i = none) ∧
    actionTransition PlayerState.Run i = some PlayerState.Jump := by
  by_cases hd : i.direction = 1 <;>
    simp [actionTransition, cmdGuard, forwardGuard, h, hd]

/-- Witness for `c3_jump_amended`: facing backward with pending `jump`,
the event is absorbed from `Idle` but fires from `Run`. -/
theorem c3_jump_amended_witness :
    actionTransition PlayerState.Idle backwardJumpInput = none ∧
    actionTransition PlayerState.Run backwardJumpInput = some PlayerState.Jump := by
  have h := c3_jump_amended backwardJumpInput rfl
  exact ⟨(h.2.2.1 (by decide)).1, h.2.2.2⟩

/-- C4 counterexample: `get_desired_movement_state` never looks at the
direction, so with a movement key and shift held while facing backward it
returns `run_state` (here `2`), not `walk_state` (here `1`) as the claim
says. -/
theorem c4_desired_state_counterexample :
    InputState.get_desired_movement_state moveShiftBackward (0 : Nat) 1 2 = 2 ∧
    InputState.get_desired_movement_state moveShiftBackward (0 : Nat) 1 2 ≠ 1 := by
  decide

/-- C4 amended: `get_desired_movement_state` returns `no_move` when no
movement key is held; otherwise it returns `run_state` exactly when shift
is held, with no condition on the direction, and `walk_state` exactly
when shift is not held.  (The repository's own parametrized test asserts
left+shift gives the run state.) -/
theorem c4_desired_state_amended {α : Type} (i : InputState)
    (no_move walk_state run_state : α)
    (hnw : no_move ≠ walk_state) (hnr : no_move ≠ run_state)
    (hwr : walk_state ≠ run_state) :
    (i.get_desired_movement_state no_move walk_state run_state = no_move ↔
      i.move = false) ∧
    (i.get_desired_movement_state no_move walk_state run_state = run_state ↔
      (i.move = true ∧ i.shift_key_pressed = true)) ∧
    (i.get_desired_movement_state no_move walk_state run_state = walk_state ↔
      (i.move = true ∧ i.shift_key_pressed = false)) := by
  cases hm : i.move <;> cases hs : i.shift_key_pressed <;>
    simp [InputState.get_desired_movement_state, InputState.move_key_pressed,
      hm, hs, hnw, hnr, hwr, Ne.symm hnw, Ne.symm hnr, Ne.symm hwr]

/-- Witness for `c4_desired_state_amended` at the backward shifted moving
input with the distinct markers 0, 1, 2. -/
theorem c4_desired_state_amended_witness :
    InputState.get_desired_movement_state moveShiftBackward (0 : Nat) 1 2 = 2 :=
  (c4_desired_state_amended moveShiftBackward 0 1 2 (by decide) (by decide)
    (by decide)).2.1.mpr (by decide)

/-- C5 counterexample: `handle_action_input` never validates the command
string.  From `Idle` the unrecognized command `"fly"` leaves the state
unchanged (no `action` guard matches), but it is stored as the pending
command `latest_cmd`; from the non-interruptible state `Jump` it is
appended to the command buffer — contradicting the claim that it is
neither stored nor appended. -/
theorem c5_invalid_cmd_counterexample :
    (handle_action_input (initSM {}) "fly").current = PlayerState.Idle ∧
    (handle_action_input (initSM {}) "fly").input.latest_cmd = some "fly" ∧
    (handle_action_input { current := PlayerState.Jump, queue := [], input := {} } "fly").queue
      = ["fly"] := by
  decide

/-- C5 amended: an unrecognized command fires no transition — the current
state is unchanged and no error is raised — but it is not rejected at the
boundary: in an interruptible state it is stored as the pending command
`latest_cmd`, and in a non-interruptible state it is appended to the
command buffer. -/
theorem c5_invalid_cmd_amended (m : PlayerSM) (cmd : String)
    (h1 : cmd ≠ "jump") (h2 : cmd ≠ "attack_1") (h3 : cmd ≠ "attack_2")
    (h4 : cmd ≠ "special") :
    (handle_action_input m cmd).current = m.current ∧
    (m.current.isNonInterruptible = true →
      (handle_action_input m cmd).queue = dequeAppend2 m.queue cmd ∧
      (handle_action_input m cmd).input = m.input) ∧
    (m.current.isNonInterruptible = false →
      (handle_action_input m cmd).queue = m.queue ∧
      (handle_action_input m cmd).input.latest_cmd = some cmd) := by
  have hguard : ∀ name : String, cmd ≠ name →
      cmdGuard { m.input with latest_cmd := some cmd } name = false := by
    intro name hne
    simp [cmdGuard, hne]
  cases hni : m.current.isNonInterruptible with
  | true =>
      simp [handle_action_input, hni]
  | false =>
      have hnone : actionTransition m.current
          { m.input with latest_cmd := some cmd } = none := by
        cases hc : m.current <;>
          simp [actionTransition, hguard _ h1, hguard _ h2, hguard _ h3, hguard _ h4]
      simp [handle_action_input, hni, fireAction, hnone]

/-- Witness for `c5_invalid_cmd_amended` at the initial machine and the
command `"fly"`. -/
theorem c5_invalid_cmd_amended_witness :
    (handle_action_input (initSM {}) "fly").current = (initSM {}).current ∧
    (handle_action_input (initSM {}) "fly").input.latest_cmd = some "fly" := by
  have h := c5_invalid_cmd_amended (initSM {}) "fly" (by decide) (by decide)
    (by decide) (by decide)
  exact ⟨h.1, (h.2.2 (by decide)).2⟩

/-- C6 counterexample: the `movement` event declares the self-transition
`Idle.to(Idle, unless="move")`; with no movement key held it fires on
every call, and a fired self-transition is external in the statemachine
library — it runs `on_exit_Idle` and `on_enter_Idle`, restarting the idle
animation cycle.  So firing `movement` twice from `Idle` with the default
input makes the second firing re-enter `Idle` (result `some Idle`, not an
absorbed `none`). -/
theorem c6_movement_counterexample :
    movementTransition PlayerState.Idle ({} : InputState) = some PlayerState.Idle ∧
    movementTransition
      ((movementTransition PlayerState.Idle ({} : InputState)).getD PlayerState.Idle)
      ({} : InputState) = some PlayerState.Idle := by
  decide

/-- C6 amended: after one firing of `movement`, a second firing with the
same input is absorbed (no transition, hence no enter hook and no
animation restart) in every case except one: when the state after the
first firing is `Idle` and no movement key is held, the declared
`Idle`-to-`Idle` self-transition fires again, re-entering `Idle` and
restarting the idle animation. -/
theorem c6_movement_amended (s : PlayerState) (i : InputState) :
    movementTransition ((movementTransition s i).getD s) i =
      (if ((movementTransition s i).getD s) = PlayerState.Idle ∧ i.move = false
       then some PlayerState.Idle else none) := by
  cases s <;>
    cases hl : i._left_pressed <;> cases hr : i._right_pressed <;>
      cases hsh : i.shift_key_pressed <;> by_cases hf : i.direction = 1 <;>
        simp [movementTransition, InputState.move, InputState.shift,
          forwardGuard, hl, hr, hsh, hf]

/-- The operations a caller can perform on the player machine: the public
entry points (`handle_action_input`, the `movement` event, updating the
shared input from key events) and the animation-cycle completion callback
of an action state. -/
inductive SMOp where
  | act (cmd : String)
  | setInput (i : InputState)
  | moveEvent
  | cycleComplete

/-- Apply one machine operation. -/
def applyOp (m : PlayerSM) : SMOp → PlayerSM
  | .act cmd => handle_action_input m cmd
  | .setInput i => { m with input := i }
  | .moveEvent => fireMovement m
  | .cycleComplete => onActionComplete m

/-- Apply a sequence of machine operations. -/
def applyOps (m : PlayerSM) (ops : List SMOp) : PlayerSM :=
  ops.foldl applyOp m

lemma dequeAppend2_length_le (q : List String) (c : String) (h : q.length ≤ 2) :
    (dequeAppend2 q c).length ≤ 2 := by
  unfold dequeAppend2
  by_cases hl : q.length < 2 <;> simp [hl] <;> omega

lemma fireAction_queue (m : PlayerSM) : (fireAction m).queue = m.queue := by
  unfold fireAction
  cases actionTransition m.current m.input <;> rfl

lemma fireMovement_queue (m : PlayerSM) : (fireMovement m).queue = m.queue := by
  unfold fireMovement
  cases movementTransition m.current m.input <;> rfl

lemma pumpQueue_queue_le (m : PlayerSM) :
    (pumpQueue m).queue.length ≤ m.queue.length := by
  unfold pumpQueue
  cases hq : m.queue with
  | nil => simp [hq]
  | cons c rest => simp [fireAction_queue, hq]

lemma fireResume_queue_le (m : PlayerSM) :
    (fireResume m).queue.length ≤ m.queue.length := by
  unfold fireResume
  cases resumeTransition m.current m.input with
  | none => exact le_refl _
  | some t => exact pumpQueue_queue_le { m with current := t }

lemma onActionComplete_queue_le (m : PlayerSM) :
    (onActionComplete m).queue.length ≤ m.queue.length := by
  unfold onActionComplete
  cases hq : m.queue with
  | nil => simpa [hq] using fireResume_queue_le m
  | cons c rest => simp [fireAction_queue, hq]

lemma applyOp_queue_le_two (m : PlayerSM) (h : m.queue.length ≤ 2) (op : SMOp) :
    (applyOp m op).queue.length ≤ 2 := by
  cases op with
  | act cmd =>
      unfold applyOp handle_action_input
      by_cases hni : m.current.isNonInterruptible = true
      · simpa [hni] using dequeAppend2_length_le m.queue cmd h
      · simp only [hni]
        simpa [fireAction_queue] using h
  | setInput i => exact h
  | moveEvent => simpa [applyOp, fireMovement_queue] using h
  | cycleComplete => exact le_trans (onActionComplete_queue_le m) h

lemma applyOps_queue_le_two (m : PlayerSM) (h : m.queue.length ≤ 2)
    (ops : List SMOp) : (applyOps m ops).queue.length ≤ 2 := by
  induction ops generalizing m with
  | nil => exact h
  | cons op rest ih => exact ih (applyOp m op) (applyOp_queue_le_two m h op)

/-- C7: along any sequence of operations from the initial machine the
command buffer never holds more than 2 commands; and whenever
`handle_action_input` is called in a non-interruptible state, the command
is appended to the buffer instead of firing the `action` event — the
current state and the shared input are untouched — with the oldest
buffered command evicted when the buffer is already full (the
`deque(maxlen=2)` drop-oldest behaviour). -/
theorem c7_buffer_invariant (i : InputState) (ops : List SMOp) (cmd : String) :
    (applyOps (initSM i) ops).queue.length ≤ 2 ∧
    ((applyOps (initSM i) ops).current.isNonInterruptible = true →
      (handle_action_input (applyOps (initSM i) ops) cmd).current =
        (applyOps (initSM i) ops).current ∧
      (handle_action_input (applyOps (initSM i) ops) cmd).input =
        (applyOps (initSM i) ops).input ∧
      (handle_action_input (applyOps (initSM i) ops) cmd).queue =
        (if (applyOps (initSM i) ops).queue.length < 2
         then (applyOps (initSM i) ops).queue ++ [cmd]
         else (applyOps (initSM i) ops).queue.drop 1 ++ [cmd])) := by
  refine ⟨applyOps_queue_le_two (initSM i) (by simp [initSM]) ops, fun hni => ?_⟩
  simp [handle_action_input, hni, dequeAppend2]

/-- Witness for `c7_buffer_invariant`: after the single call
`handle_action_input "jump"` the machine is in `Jump`; a further
`handle_action_input "attack_1"` leaves the state at `Jump` and buffers
the command. -/
theorem c7_buffer_invariant_witness :
    (applyOps (initSM {}) [SMOp.act "jump"]).queue.length ≤ 2 ∧
    (handle_action_input (applyOps (initSM {}) [SMOp.act "jump"]) "attack_1").current =
      (applyOps (initSM {}) [SMOp.act "jump"]).current := by
  have h := c7_buffer_invariant ({} : InputState) [SMOp.act "jump"] "attack_1"
  exact ⟨h.1, (h.2 (by decide)).1⟩

/-- The key operations of the input model. -/
inductive KeyOp where
  | press_left
  | press_right
  | release_left
  | release_right

/-- Apply one key operation to an `InputState`. -/
def applyKey (s : InputState) : KeyOp → InputState
  | .press_left => s.press_left
  | .press_right => s.press_right
  | .release_left => s.release_left
  | .release_right => s.release_right

/-- Apply a sequence of key operations. -/
def applyKeys (s : InputState) (ops : List KeyOp) : InputState :=
  ops.foldl applyKey s

/-- The direction invariant maintained by the key operations. -/
def DirInv (s : InputState) : Prop :=
  (s.direction = -1 ∨ s.direction = 1) ∧
  (s._right_pressed = true → s.direction = 1)

lemma dirInv_applyKey (s : InputState) (h : DirInv s) (op : KeyOp) :
    DirInv (applyKey s op) := by
  obtain ⟨hval, hright⟩ := h
  cases op <;>
    simp only [applyKey, InputState.press_left, InputState.press_right,
      InputState.release_left, InputState.release_right,
      InputState._update_direction] <;>
    · constructor
      · split <;> try split
        all_goals simp_all
      · intro hr
        split at hr <;> try split at hr
        all_goals simp_all

lemma dirInv_applyKeys (s : InputState) (h : DirInv s) (ops : List KeyOp) :
    DirInv (applyKeys s ops) := by
  induction ops generalizing s with
  | nil => exact h
  | cons op rest ih => exact ih (applyKey s op) (dirInv_applyKey s h op)

lemma release_keeps_direction (s : InputState) (op : KeyOp)
    (h : (applyKey s op).move = false) :
    (applyKey s op).direction = s.direction := by
  cases op <;>
    simp only [applyKey, InputState.press_left, InputState.press_right,
      InputState.release_left, InputState.release_right,
      InputState._update_direction, InputState.move] at h ⊢ <;>
    · split <;> try split
      all_goals simp_all

/-- C8: from the default input, along every sequence of key press/release
operations the direction stays in {-1, +1}; whenever the right key is
held (the left key simultaneously held or not) the direction is +1; and a
key operation after which no movement key is held leaves the direction
unchanged. -/
theorem c8_direction_invariant (ops : List KeyOp) :
    ((applyKeys ({} : InputState) ops).direction = -1 ∨
      (applyKeys ({} : InputState) ops).direction = 1) ∧
    ((applyKeys ({} : InputState) ops)._right_pressed = true →
      (applyKeys ({} : InputState) ops).direction = 1) ∧
    (∀ op : KeyOp, (applyKey (applyKeys ({} : InputState) ops) op).move = false →
      (applyKey (applyKeys ({} : InputState) ops) op).direction =
        (applyKeys ({} : InputState) ops).direction) := by
  have h := dirInv_applyKeys ({} : InputState) (by constructor <;> simp) ops
  exact ⟨h.1, h.2, fun op => release_keeps_direction _ op⟩

/-- Witness for `c8_direction_invariant`: after pressing left then right,
both keys are held and the direction is +1 (right wins the tie). -/
theorem c8_direction_invariant_witness :
    (applyKeys ({} : InputState) [KeyOp.press_left, KeyOp.press_right]).direction = 1 :=
  (c8_direction_invariant [KeyOp.press_left, KeyOp.press_right]).2.1 (by decide)

/-- C9 counterexample: the outgoing weights of the enemy `walk` event sum
to 95, not 115, so the normalized probability of choosing `Walk` from
`Walk` is not 35/115. -/
theorem c9_walk_prob_counterexample :
    walkProb EnemyState.Walk ≠ 35 / 115 := by
  have h : walkWeightOf EnemyState.Walk = 35 := by decide
  have ht : walkTotal = 95 := by decide
  rw [walkProb, h, ht]
  norm_num

/-- C9 amended: the `walk` event draws among Attack_1:5, Attack_2:10,
Special:5, Run:25, Walk:35, Idle:15, whose sum is 95; normalized by that
sum, the probability of choosing `Walk` from `Walk` is 35/95. -/
theorem c9_walk_prob_amended :
    walkTotal = 95 ∧
    walkProb EnemyState.Walk = 35 / 95 ∧
    walkProb EnemyState.Attack_1 = 5 / 95 ∧
    walkProb EnemyState.Attack_2 = 10 / 95 ∧
    walkProb EnemyState.Special = 5 / 95 ∧
    walkProb EnemyState.Run = 25 / 95 ∧
    walkProb EnemyState.Idle = 15 / 95 := by
  have ht : walkTotal = 95 := by decide
  have h1 : walkWeightOf EnemyState.Walk = 35 := by decide
  have h2 : walkWeightOf EnemyState.Attack_1 = 5 := by decide
  have h3 : walkWeightOf EnemyState.Attack_2 = 10 := by decide
  have h4 : walkWeightOf EnemyState.Special = 5 := by decide
  have h5 : walkWeightOf EnemyState.Run = 25 := by decide
  have h6 : walkWeightOf EnemyState.Idle = 15 := by decide
  refine ⟨ht, ?_, ?_, ?_, ?_, ?_, ?_⟩ <;>
    rw [walkProb, ht] <;> first
      | (rw [h1]; norm_num) | (rw [h2]; norm_num) | (rw [h3]; norm_num)
      | (rw [h4]; norm_num) | (rw [h5]; norm_num) | (rw [h6]; norm_num)

/-- C10: the `movement` event declares transitions only out of `Idle`,
`Walk` and `Run`; from every other state — the non-interruptible states
in particular — it has no eligible transition, so with
`allow_event_without_transition = True` it is silently absorbed: the
machine is left unchanged and no exception is raised (absorption is total,
modelled by `fireMovement` returning the machine itself). -/
theorem c10_movement_absorbed (m : PlayerSM)
    (h1 : m.current ≠ PlayerState.Idle) (h2 : m.current ≠ PlayerState.Walk)
    (h3 : m.current ≠ PlayerState.Run) :
    movementTransition m.current m.input = none ∧ fireMovement m = m := by
  have hnone : movementTransition m.current m.input = none := by
    cases hc : m.current <;> simp_all [movementTransition]
  exact ⟨hnone, by simp [fireMovement, hnone]⟩

/-- Witness for `c10_movement_absorbed`: in state `Jump` the movement
event leaves the machine untouched. -/
theorem c10_movement_absorbed_witness :
    fireMovement { current := PlayerState.Jump, queue := [], input := {} } =
      { current := PlayerState.Jump, queue := [], input := {} } :=
  (c10_movement_absorbed { current := PlayerState.Jump, queue := [], input := {} }
    (by decide) (by decide) (by decide)).2

end AmazonWarriors
